import Mathlib

/-!
Verification of the krustlet node agent core.

This file gives a shallow embedding of the parts of the code that the
verified properties speak about:

* `Store` — the typed object cache from `crates/krator/src/store.rs`;
* `Queue` — the per-pod event queue from `crates/kubelet/src/pod/queue.rs`,
  together with the `start_task` state-machine driver from the same file;
* the `Error` / `CrashLoopBackoff` pod states from
  `crates/wasi-provider/src/states/`;
* the container status broadcasts of `spawn_wasmtime` from
  `crates/wasi-provider/src/wasi_runtime.rs`;
* the watch-channel semantics behind `Manifest`
  (`crates/krator/src/manifest.rs`).

Rust `HashMap`s are embedded as association lists (first binding wins on
lookup; insertion replaces all previous bindings of the key).  Machine
effects that the properties do not mention — logging, timestamps, real-time
waits — are dropped; fallible external calls (Kubernetes API patches,
channel sends) are modelled as succeeding, matching the spec's treatment of
the cluster API as an assumed external collaborator.
-/

namespace Krustlet

/-! ## Definitions -/

/-! ### Association-list maps

Rust `HashMap<K, V>` is embedded as `List (K × V)`.  `alookup` returns the
first binding, `aremove` drops every binding of a key, and `aupsert`
replaces the binding of a key (the semantics of `HashMap::insert`). -/

def alookup {α β : Type} [DecidableEq α] : List (α × β) → α → Option β
  | [], _ => none
  | (k, v) :: rest, key => if k = key then some v else alookup rest key

def aremove {α β : Type} [DecidableEq α] : List (α × β) → α → List (α × β)
  | [], _ => []
  | (k, v) :: rest, key =>
    if k = key then aremove rest key else (k, v) :: aremove rest key

def aupsert {α β : Type} [DecidableEq α] (l : List (α × β)) (key : α) (v : β) :
    List (α × β) :=
  (key, v) :: aremove l key

/-! ### ObjectStore — `crates/krator/src/store.rs`

The store maps a `GroupVersionKind` to an inner map from `ObjectKey` to a
type-erased boxed value (`Box<dyn Any + Send + Sync>`).  A Rust resource
type `R` is embedded as a `Resource` record carrying its GVK constants and
its runtime `TypeId` (`tyId`); a box carries the `TypeId` of the value it
holds plus an opaque payload, and `downcast_ref::<R>` succeeds exactly when
the two `TypeId`s agree. -/

structure GroupVersionKind where
  group : String
  version : String
  kind : String
deriving DecidableEq

/-- `ObjectKey` from `crates/krator/src/object.rs`: optional namespace
(the source field is called `namespace`, a Lean keyword) plus name. -/
structure ObjectKey where
  nspace : Option String
  name : String
deriving DecidableEq

/-- A Rust type implementing `k8s_openapi::Resource`: its associated GVK
constants plus its runtime `TypeId`. -/
structure Resource where
  group : String
  version : String
  kind : String
  tyId : Nat
deriving DecidableEq

def Resource.gvk (r : Resource) : GroupVersionKind :=
  ⟨r.group, r.version, r.kind⟩

/-- A `Box<dyn Any + Send + Sync>`: the `TypeId` of the held value and an
opaque payload standing for the value itself. -/
structure AnyBox where
  tyId : Nat
  payload : Nat
deriving DecidableEq

structure Store where
  objects : List (GroupVersionKind × List (ObjectKey × AnyBox))
deriving DecidableEq

def Store.empty : Store := ⟨[]⟩

/-- `Store::insert`: fetch or create the inner map for `R`'s GVK and
overwrite the binding at the object key with a freshly boxed value. -/
def Store.insert (st : Store) (r : Resource) (nspace : Option String)
    (name : String) (v : Nat) : Store :=
  let inner := (alookup st.objects r.gvk).getD []
  ⟨aupsert st.objects r.gvk (aupsert inner ⟨nspace, name⟩ ⟨r.tyId, v⟩)⟩

/-- `Store::insert_any`: store an already type-erased box under an
explicitly supplied GVK. -/
def Store.insertAny (st : Store) (gvk : GroupVersionKind)
    (nspace : Option String) (name : String) (box : AnyBox) : Store :=
  let inner := (alookup st.objects gvk).getD []
  ⟨aupsert st.objects gvk (aupsert inner ⟨nspace, name⟩ box)⟩

/-- The error text built by the `anyhow::bail!` in `Store::get`. -/
def mismatchMessage (r : Resource) : String :=
  "Could not interpret interred object as type " ++ r.group ++ "/" ++
    r.version ++ " " ++ r.kind

/-- `Store::get`: look up the inner map for `R`'s GVK, then the object key,
then downcast; a missing GVK map or missing key yields `Ok(None)`, a failed
downcast yields the `bail!` error. -/
def Store.get (st : Store) (r : Resource) (nspace : Option String)
    (name : String) : Except String (Option Nat) :=
  match alookup st.objects r.gvk with
  | some inner =>
    match alookup inner ⟨nspace, name⟩ with
    | some box =>
      if box.tyId = r.tyId then Except.ok (some box.payload)
      else Except.error (mismatchMessage r)
    | none => Except.ok none
  | none => Except.ok none

/-- The value `Store::get` would successfully return, if any: the typed
view of one slot of the store. -/
def typedLookup (st : Store) (r : Resource) (nspace : Option String)
    (name : String) : Option Nat :=
  match alookup st.objects r.gvk with
  | some inner =>
    match alookup inner ⟨nspace, name⟩ with
    | some box => if box.tyId = r.tyId then some box.payload else none
    | none => none
  | none => none

/-! ### Single-key operation histories on the store

To state linearizability per key we run a sequence of `insert`/`get`
operations for one fixed resource and object key against the store and
record, in order, the values the `get`s observe. -/

inductive StoreOp where
  | ins (v : Nat)
  | get
deriving DecidableEq

/-- The sequence of values written by the `insert`s of a history. -/
def writesOf : List StoreOp → List Nat
  | [] => []
  | StoreOp.ins v :: rest => v :: writesOf rest
  | StoreOp.get :: rest => writesOf rest

/-- Run a history against the store; collect the values observed by `get`
(a `get` returning `Ok(None)` or an error observes no value). -/
def runObs (r : Resource) (nspace : Option String) (name : String) :
    List StoreOp → Store → List Nat
  | [], _ => []
  | StoreOp.ins v :: rest, st =>
    runObs r nspace name rest (st.insert r nspace name v)
  | StoreOp.get :: rest, st =>
    match st.get r nspace name with
    | Except.ok (some v) => v :: runObs r nspace name rest st
    | _ => runObs r nspace name rest st

/-- The same history run against the typed view of the single slot. -/
def runOpt : List StoreOp → Option Nat → List Nat
  | [], _ => []
  | StoreOp.ins v :: rest, _ => runOpt rest (some v)
  | StoreOp.get :: rest, cur =>
    match cur with
    | some v => v :: runOpt rest (some v)
    | none => runOpt rest none

/-- Collapse consecutive duplicates, given the previously kept value. -/
def collapseFrom (prev : Nat) : List Nat → List Nat
  | [] => []
  | v :: rest =>
    if v = prev then collapseFrom prev rest else v :: collapseFrom v rest

/-- Collapse consecutive duplicates of a list of observations. -/
def collapse : List Nat → List Nat
  | [] => []
  | v :: rest => v :: collapseFrom v rest

/-! ### EventQueue — `crates/kubelet/src/pod/queue.rs`

`Queue<P>` holds `handlers: HashMap<PodKey, Sender<Event<KubePod>>>`.  A
mailbox sender is embedded as a numeric id drawn from a counter; the events
forwarded into mailboxes and the state-machine tasks spawned by `run_pod`
are recorded in order so properties can speak about them.  Pods are reduced
to their `PodKey` (namespace, name) — the only part of the pod object that
`enqueue` and `resync` inspect. -/

structure PodKey where
  nspace : String
  name : String
deriving DecidableEq

/-- `kube_runtime::watcher::Event<KubePod>`, pods reduced to their keys. -/
inductive WatchEvent where
  | applied (key : PodKey)
  | deleted (key : PodKey)
  | restarted (keys : List PodKey)
deriving DecidableEq

structure Queue where
  /-- the `handlers` map: pod key to mailbox sender -/
  handlers : List (PodKey × Nat)
  /-- fresh-id counter for mailboxes created by `run_pod` -/
  nextId : Nat
  /-- every event forwarded into a mailbox, oldest first -/
  sent : List (Nat × WatchEvent)
  /-- every state-machine task spawned by `run_pod`, with its mailbox id -/
  spawned : List (Nat × PodKey)
deriving DecidableEq

def Queue.empty : Queue := ⟨[], 0, [], []⟩

/-- `Queue::run_pod` (called with an `Applied` initial event): create the
mpsc channel and spawn `start_task` for the pod; returns the new sender. -/
def Queue.run_pod (q : Queue) (key : PodKey) : Nat × Queue :=
  (q.nextId,
    { q with
        nextId := q.nextId + 1
        spawned := q.spawned ++ [(q.nextId, key)] })

/-- `Queue::enqueue`.  `Applied`: reuse the existing mailbox or create one
via `run_pod`, then forward the event.  `Deleted`: remove the mailbox and
forward the final event into it, or silently drop when no mailbox exists.
`Restarted`: warned about and ignored (it belongs to `resync`).  All paths
return `Ok` in the source under the modelling assumption that channel sends
and `initialize_pod_state` succeed. -/
def Queue.enqueue (q : Queue) (e : WatchEvent) : Queue :=
  match e with
  | WatchEvent.applied key =>
    match alookup q.handlers key with
    | some mid => { q with sent := q.sent ++ [(mid, e)] }
    | none =>
      let p := q.run_pod key
      let q2 := { p.2 with handlers := aupsert p.2.handlers key p.1 }
      { q2 with sent := q2.sent ++ [(p.1, e)] }
  | WatchEvent.deleted key =>
    match alookup q.handlers key with
    | some mid =>
      { q with
          handlers := aremove q.handlers key
          sent := q.sent ++ [(mid, e)] }
    | none => q
  | WatchEvent.restarted _ => q

/-- The first loop of `Queue::resync`: enqueue `Deleted` for each stale key. -/
def delPhase (q : Queue) (ks : List PodKey) : Queue :=
  ks.foldl (fun s k => s.enqueue (WatchEvent.deleted k)) q

/-- The second loop of `Queue::resync`: enqueue `Applied` for each pod. -/
def appPhase (q : Queue) (ks : List PodKey) : Queue :=
  ks.foldl (fun s k => s.enqueue (WatchEvent.applied k)) q

/-- `Queue::resync`: enqueue `Deleted` for every handled key missing from
the pod list, then `Applied` for every pod in the list. -/
def Queue.resync (q : Queue) (pods : List PodKey) : Queue :=
  let stale := (q.handlers.map Prod.fst).filter (fun k => decide (¬ k ∈ pods))
  appPhase (delPhase q stale) pods

/-! ### `start_task` — the driver spawned per pod (same file)

`start_task` races `run_to_completion` from the initial state against the
pod-deleted sentinel; afterwards it waits for the deletion flag, runs the
pod state's `async_drop`, and deregisters the pod with the API server.  The
body is straight-line apart from the race, so it is embedded as the trace
of actions it performs for each outcome of the `select!`. -/

inductive RunResult where
  | ok
  | err (msg : String)
deriving DecidableEq

/-- Which arm of the `tokio::select!` in `start_task` wins, and the result
of the `run_to_completion` call that arm performs. -/
inductive SelectOutcome where
  | completed (r : RunResult)
  | deletedFirst (r : RunResult)
deriving DecidableEq

inductive TaskAction where
  /-- `run_to_completion` from the initial (`true`) or terminated (`false`)
  state, with its result -/
  | runToCompletion (initialState : Bool) (r : RunResult)
  /-- the `patch_status` of phase `Failed` after a state-machine error -/
  | patchStatusFailed (reason : String)
  /-- the wait-for-deregistration loop on the deletion flag -/
  | awaitDeletion
  /-- `pod_state.async_drop().await` -/
  | asyncDrop
  /-- the final `pod_client.delete` -/
  | deregisterPod
deriving DecidableEq

def isAsyncDrop : TaskAction → Bool
  | TaskAction.asyncDrop => true
  | _ => false

/-- The trace of actions `start_task` performs for each race outcome. -/
def start_task : SelectOutcome → List TaskAction
  | SelectOutcome.completed RunResult.ok =>
    [TaskAction.runToCompletion true RunResult.ok,
      TaskAction.awaitDeletion, TaskAction.asyncDrop,
      TaskAction.deregisterPod]
  | SelectOutcome.completed (RunResult.err m) =>
    [TaskAction.runToCompletion true (RunResult.err m),
      TaskAction.patchStatusFailed m,
      TaskAction.awaitDeletion, TaskAction.asyncDrop,
      TaskAction.deregisterPod]
  | SelectOutcome.deletedFirst r =>
    [TaskAction.runToCompletion false r,
      TaskAction.awaitDeletion, TaskAction.asyncDrop,
      TaskAction.deregisterPod]

/-! ### Pod phases and the wasi-provider `Error`/`CrashLoopBackoff` states

From `crates/kubelet/src/pod/status.rs` (`Phase`, `make_status`) and
`crates/wasi-provider/src/states/error.rs` /
`crash_loop_backoff.rs`.  `make_status` builds a JSON patch whose payload
is the phase and the reason; it is embedded as that pair. -/

inductive Phase where
  | pending
  | running
  | failed
  | succeeded
  | unknown
deriving DecidableEq

def make_status (phase : Phase) (reason : String) : Phase × String :=
  (phase, reason)

/-- The `errors` counter of the wasi-provider `PodState` (the only field
the `Error` state touches). -/
structure WasiPodState where
  errors : Nat
deriving DecidableEq

inductive ErrorTransition where
  /-- `Transition` to `CrashLoopBackoff` -/
  | toCrashLoopBackoff
  /-- a 5-second `delay_for` followed by `Transition` to `Registered` -/
  | waitThenRegistered
deriving DecidableEq

/-- `Error::next`: increment the error counter; above 3, reset it and go to
`CrashLoopBackoff`, otherwise wait and go back to `Registered`. -/
def errorNext (s : WasiPodState) : WasiPodState × ErrorTransition :=
  let e := s.errors + 1
  if 3 < e then (⟨0⟩, ErrorTransition.toCrashLoopBackoff)
  else (⟨e⟩, ErrorTransition.waitThenRegistered)

/-- `Error::json_status`: phase `Pending` with the stored error message. -/
def errorStatus (message : String) : Phase × String :=
  make_status Phase.pending message

inductive BackoffStep where
  /-- `crash_loop_backoff_strategy.wait()` then `Transition` to `Registered` -/
  | waitThenRegistered
deriving DecidableEq

/-- `CrashLoopBackoff::next`: wait on the backoff strategy, then transition
to `Registered`. -/
def crashLoopBackoffNext : BackoffStep := BackoffStep.waitThenRegistered

/-- `CrashLoopBackoff::json_status`. -/
def crashLoopBackoffStatus : Phase × String :=
  make_status Phase.pending "CrashLoopBackoff"

/-- The outcome of the `n+1`-th consecutive visit to the `Error` state
starting from pod state `s` (the pod re-enters `Error` after each
`Registered` retry without any successful progress in between). -/
def errorRepeat (s : WasiPodState) : Nat → WasiPodState × ErrorTransition
  | 0 => errorNext s
  | n + 1 => errorRepeat (errorNext s).1 n

/-! ### Container status broadcasts — `crates/wasi-provider/src/wasi_runtime.rs`

`WasiRuntime::start` creates the watch channel with an initial `Waiting`
status and hands the sender to `spawn_wasmtime`, whose blocking task
broadcasts further statuses at each stage.  Timestamps are real-time values
and are dropped from the embedding; the status kind, failure flag and
message are kept. -/

inductive ContainerStatus where
  | waiting (message : String)
  | running
  | terminated (failed : Bool) (message : String)
deriving DecidableEq

/-- Where the wasmtime task stops: each failure point of
`spawn_wasmtime`, or a complete run. -/
inductive WasmtimeOutcome where
  | moduleErr
  | importsErr
  | instanceErr
  | runErr
  | runOk
deriving DecidableEq

/-- The statuses broadcast by the task `spawn_wasmtime` spawns, in order. -/
def spawn_wasmtime : WasmtimeOutcome → List ContainerStatus
  | WasmtimeOutcome.moduleErr =>
    [ContainerStatus.terminated true "unable to create module"]
  | WasmtimeOutcome.importsErr =>
    [ContainerStatus.terminated true "unable to load module"]
  | WasmtimeOutcome.instanceErr =>
    [ContainerStatus.terminated true "unable to instantiate module"]
  | WasmtimeOutcome.runErr =>
    [ContainerStatus.running,
      ContainerStatus.terminated true "unable to run module"]
  | WasmtimeOutcome.runOk =>
    [ContainerStatus.running,
      ContainerStatus.terminated false "Module run completed"]

/-- The full status sequence seen on the channel created by
`WasiRuntime::start`: the initial `Waiting` value followed by the
broadcasts of the spawned task. -/
def runtimeStatuses (o : WasmtimeOutcome) : List ContainerStatus :=
  ContainerStatus.waiting "No status has been received from the process"
    :: spawn_wasmtime o

/-- Lifecycle rank: `Waiting` before `Running` before `Terminated`. -/
def statusRank : ContainerStatus → Nat
  | ContainerStatus.waiting _ => 0
  | ContainerStatus.running => 1
  | ContainerStatus.terminated _ _ => 2

def isTerminatedStatus : ContainerStatus → Bool
  | ContainerStatus.terminated _ _ => true
  | _ => false

def isWaitingStatus : ContainerStatus → Bool
  | ContainerStatus.waiting _ => true
  | _ => false

/-! ### The watch channel behind `Manifest` — `crates/krator/src/manifest.rs`

Modelled from the spec: `Manifest` wraps a `tokio::sync::watch` channel,
whose implementation is outside this repository.  Per §4.2 of the spec the
channel keeps only the latest value (`send` is atomic and coalescing), a
reader's poll yields the current value exactly when it has not yet been
observed by that reader, and `Manifest::latest` returns a clone of the
current value without suspending.  The channel is a value plus a version
counter; a reader remembers the last version it observed. -/

structure WatchChannel (T : Type) where
  value : T
  version : Nat

structure WatchReader where
  seen : Nat

/-- `writer.send(v)`: replace the value, bump the version. -/
def wsend {T : Type} (c : WatchChannel T) (v : T) : WatchChannel T :=
  ⟨v, c.version + 1⟩

/-- One reader poll: yields the current value iff this reader has not yet
seen the current version. -/
def wpoll {T : Type} (c : WatchChannel T) (r : WatchReader) :
    Option T × WatchReader :=
  if r.seen < c.version then (some c.value, ⟨c.version⟩) else (none, r)

/-- `Manifest::latest`: `self.rx.borrow().clone()`. -/
def latest {T : Type} (c : WatchChannel T) : T :=
  c.value

/-! ## Theorems -/

/-! ### Association-list lemmas -/

theorem alookup_aremove_self {α β : Type} [DecidableEq α]
    (l : List (α × β)) (key : α) : alookup (aremove l key) key = none := by
  induction l with
  | nil => rfl
  | cons p rest ih =>
    obtain ⟨k, v⟩ := p
    by_cases h : k = key
    · simp [aremove, h, ih]
    · simp [aremove, alookup, h, ih]

theorem alookup_aremove_ne {α β : Type} [DecidableEq α]
    (l : List (α × β)) (key k : α) (h : k ≠ key) :
    alookup (aremove l key) k = alookup l k := by
  induction l with
  | nil => rfl
  | cons p rest ih =>
    obtain ⟨k0, v⟩ := p
    by_cases h0 : k0 = key
    · have hk : ¬ k0 = k := by
        intro he
        exact h (he ▸ h0)
      simp only [aremove, if_pos h0, alookup, if_neg hk, ih]
    · by_cases h1 : k0 = k
      · simp only [aremove, if_neg h0, alookup, if_pos h1]
      · simp only [aremove, if_neg h0, alookup, if_neg h1, ih]

theorem alookup_aupsert_self {α β : Type} [DecidableEq α]
    (l : List (α × β)) (key : α) (v : β) :
    alookup (aupsert l key v) key = some v := by
  simp [aupsert, alookup]

theorem alookup_aupsert_ne {α β : Type} [DecidableEq α]
    (l : List (α × β)) (key k : α) (v : β) (h : k ≠ key) :
    alookup (aupsert l key v) k = alookup l k := by
  have : key ≠ k := fun he => h he.symm
  simp [aupsert, alookup, this, alookup_aremove_ne l key k h]

theorem alookup_isSome_mem {α β : Type} [DecidableEq α]
    (l : List (α × β)) (k : α) :
    (alookup l k).isSome = true ↔ k ∈ l.map Prod.fst := by
  induction l with
  | nil => simp [alookup]
  | cons p rest ih =>
    obtain ⟨k0, v⟩ := p
    by_cases h : k0 = k
    · simp [alookup, h]
    · have : ¬ k = k0 := fun he => h he.symm
      simp [alookup, h, this, ih]

/-! ### Store lemmas -/

theorem typedLookup_insert (st : Store) (r : Resource)
    (nspace : Option String) (name : String) (v : Nat) :
    typedLookup (st.insert r nspace name v) r nspace name = some v := by
  simp [Store.insert, typedLookup, alookup_aupsert_self]

theorem get_insert (st : Store) (r : Resource) (nspace : Option String)
    (name : String) (v : Nat) :
    (st.insert r nspace name v).get r nspace name = Except.ok (some v) := by
  simp [Store.insert, Store.get, alookup_aupsert_self]

theorem get_some_of_typedLookup (st : Store) (r : Resource)
    (nspace : Option String) (name : String) :
    (match st.get r nspace name with
      | Except.ok (some v) => some v
      | _ => none) = typedLookup st r nspace name := by
  unfold Store.get typedLookup
  rcases hA : alookup st.objects r.gvk with _ | inner
  · simp [hA]
  · rcases hB : alookup inner ⟨nspace, name⟩ with _ | box
    · simp [hA, hB]
    · by_cases h : box.tyId = r.tyId <;> simp [hA, hB, h]

theorem runObs_eq_runOpt (r : Resource) (nspace : Option String)
    (name : String) (ops : List StoreOp) (st : Store) :
    runObs r nspace name ops st = runOpt ops (typedLookup st r nspace name) := by
  induction ops generalizing st with
  | nil => rfl
  | cons op rest ih =>
    cases op with
    | ins v =>
      simp only [runObs, runOpt, ih, typedLookup_insert]
    | get =>
      have hmatch := get_some_of_typedLookup st r nspace name
      simp only [runObs, runOpt]
      rcases hG : st.get r nspace name with e | ov
      · rw [hG] at hmatch
        simp only at hmatch
        rw [ih st, ← hmatch]
      · cases ov with
        | none =>
          rw [hG] at hmatch
          simp only at hmatch
          rw [ih st, ← hmatch]
        | some v =>
          rw [hG] at hmatch
          simp only at hmatch
          rw [ih st, ← hmatch]

theorem collapseFrom_sublist (ops : List StoreOp) :
    (∀ w v, List.Sublist (collapseFrom v (runOpt ops (some w)))
      (w :: writesOf ops)) ∧
    (∀ w, List.Sublist (collapseFrom w (runOpt ops (some w)))
      (writesOf ops)) := by
  induction ops with
  | nil =>
    exact ⟨fun w v => List.nil_sublist _, fun w => List.nil_sublist _⟩
  | cons op rest ih =>
    obtain ⟨ihD, ihB⟩ := ih
    constructor
    · intro w v
      cases op with
      | ins u =>
        simp only [runOpt, writesOf]
        exact (ihD u v).cons w
      | get =>
        simp only [runOpt, writesOf, collapseFrom]
        by_cases h : w = v
        · subst h
          rw [if_pos rfl]
          exact ihD w w
        · rw [if_neg h]
          exact (ihB w).cons₂ w
    · intro w
      cases op with
      | ins u =>
        simp only [runOpt, writesOf]
        exact ihD u w
      | get =>
        simp only [runOpt, collapseFrom, if_pos rfl]
        exact ihB w

theorem collapse_sublist_some (ops : List StoreOp) (w : Nat) :
    List.Sublist (collapse (runOpt ops (some w))) (w :: writesOf ops) := by
  induction ops generalizing w with
  | nil => exact List.nil_sublist _
  | cons op rest ih =>
    cases op with
    | ins u =>
      simp only [runOpt, writesOf]
      exact (ih u).cons w
    | get =>
      simp only [runOpt, collapse]
      exact ((collapseFrom_sublist rest).2 w).cons₂ w

theorem collapse_sublist_none (ops : List StoreOp) :
    List.Sublist (collapse (runOpt ops none)) (writesOf ops) := by
  induction ops with
  | nil => exact List.nil_sublist _
  | cons op rest ih =>
    cases op with
    | ins u =>
      simp only [runOpt, writesOf]
      exact collapse_sublist_some rest u
    | get =>
      simp only [runOpt, writesOf]
      exact ih

/-! ### Queue lemmas -/

theorem enqueue_applied_some (q : Queue) (k : PodKey) (mid : Nat)
    (h : alookup q.handlers k = some mid) :
    q.enqueue (WatchEvent.applied k) =
      { q with sent := q.sent ++ [(mid, WatchEvent.applied k)] } := by
  simp only [Queue.enqueue]
  rw [h]

theorem enqueue_applied_none (q : Queue) (k : PodKey)
    (h : alookup q.handlers k = none) :
    q.enqueue (WatchEvent.applied k) =
      { handlers := aupsert q.handlers k q.nextId
        nextId := q.nextId + 1
        sent := q.sent ++ [(q.nextId, WatchEvent.applied k)]
        spawned := q.spawned ++ [(q.nextId, k)] } := by
  simp only [Queue.enqueue, Queue.run_pod]
  rw [h]

theorem enqueue_deleted_some (q : Queue) (k : PodKey) (mid : Nat)
    (h : alookup q.handlers k = some mid) :
    q.enqueue (WatchEvent.deleted k) =
      { q with
          handlers := aremove q.handlers k
          sent := q.sent ++ [(mid, WatchEvent.deleted k)] } := by
  simp only [Queue.enqueue]
  rw [h]

theorem enqueue_deleted_none (q : Queue) (k : PodKey)
    (h : alookup q.handlers k = none) :
    q.enqueue (WatchEvent.deleted k) = q := by
  simp only [Queue.enqueue]
  rw [h]

theorem enqueue_deleted_lookup (q : Queue) (k0 k : PodKey) :
    alookup (q.enqueue (WatchEvent.deleted k0)).handlers k =
      if k = k0 then none else alookup q.handlers k := by
  rcases h : alookup q.handlers k0 with _ | mid
  · rw [enqueue_deleted_none q k0 h]
    by_cases hk : k = k0
    · subst hk
      rw [if_pos rfl, h]
    · rw [if_neg hk]
  · rw [enqueue_deleted_some q k0 mid h]
    by_cases hk : k = k0
    · subst hk
      simp [alookup_aremove_self]
    · simp only [if_neg hk]
      exact alookup_aremove_ne q.handlers k0 k hk

theorem enqueue_applied_lookup_isSome (q : Queue) (k0 k : PodKey) :
    (alookup (q.enqueue (WatchEvent.applied k0)).handlers k).isSome =
      ((alookup q.handlers k).isSome || decide (k = k0)) := by
  rcases h : alookup q.handlers k0 with _ | mid
  · rw [enqueue_applied_none q k0 h]
    by_cases hk : k = k0
    · subst hk
      simp [alookup_aupsert_self, h]
    · simp [hk, alookup_aupsert_ne q.handlers k0 k _ hk]
  · rw [enqueue_applied_some q k0 mid h]
    by_cases hk : k = k0
    · subst hk
      simp [h]
    · simp [hk]

theorem delPhase_cons (q : Queue) (k0 : PodKey) (rest : List PodKey) :
    delPhase q (k0 :: rest) = delPhase (q.enqueue (WatchEvent.deleted k0)) rest :=
  rfl

theorem appPhase_cons (q : Queue) (k0 : PodKey) (rest : List PodKey) :
    appPhase q (k0 :: rest) = appPhase (q.enqueue (WatchEvent.applied k0)) rest :=
  rfl

theorem delPhase_lookup (ks : List PodKey) (q : Queue) (k : PodKey) :
    alookup (delPhase q ks).handlers k =
      if k ∈ ks then none else alookup q.handlers k := by
  induction ks generalizing q with
  | nil => simp [delPhase]
  | cons k0 rest ih =>
    rw [delPhase_cons, ih, enqueue_deleted_lookup]
    by_cases hm : k ∈ rest
    · simp [hm]
    · by_cases hk : k = k0
      · simp [hk, hm]
      · simp [hk, hm]

theorem delPhase_sent_shape (ks : List PodKey) (q : Queue) :
    ∃ t, (delPhase q ks).sent = q.sent ++ t ∧
      ∀ x ∈ t, ∃ mid k, x = (mid, WatchEvent.deleted k) := by
  induction ks generalizing q with
  | nil => exact ⟨[], by simp [delPhase], by simp⟩
  | cons k0 rest ih =>
    rw [delPhase_cons]
    rcases h : alookup q.handlers k0 with _ | mid
    · rw [enqueue_deleted_none q k0 h]
      exact ih q
    · rw [enqueue_deleted_some q k0 mid h]
      obtain ⟨t, ht, hall⟩ := ih
        { q with
            handlers := aremove q.handlers k0
            sent := q.sent ++ [(mid, WatchEvent.deleted k0)] }
      refine ⟨(mid, WatchEvent.deleted k0) :: t, ?_, ?_⟩
      · rw [ht]
        simp
      · intro x hx
        rcases List.mem_cons.mp hx with hx | hx
        · exact ⟨mid, k0, hx⟩
        · exact hall x hx

theorem appPhase_sent_shape (ks : List PodKey) (q : Queue) :
    ∃ t, (appPhase q ks).sent = q.sent ++ t ∧
      ∀ x ∈ t, ∃ mid k, x = (mid, WatchEvent.applied k) := by
  induction ks generalizing q with
  | nil => exact ⟨[], by simp [appPhase], by simp⟩
  | cons k0 rest ih =>
    rw [appPhase_cons]
    rcases h : alookup q.handlers k0 with _ | mid
    · rw [enqueue_applied_none q k0 h]
      obtain ⟨t, ht, hall⟩ := ih
        { handlers := aupsert q.handlers k0 q.nextId
          nextId := q.nextId + 1
          sent := q.sent ++ [(q.nextId, WatchEvent.applied k0)]
          spawned := q.spawned ++ [(q.nextId, k0)] }
      refine ⟨(q.nextId, WatchEvent.applied k0) :: t, ?_, ?_⟩
      · rw [ht]
        simp
      · intro x hx
        rcases List.mem_cons.mp hx with hx | hx
        · exact ⟨q.nextId, k0, hx⟩
        · exact hall x hx
    · rw [enqueue_applied_some q k0 mid h]
      obtain ⟨t, ht, hall⟩ := ih
        { q with sent := q.sent ++ [(mid, WatchEvent.applied k0)] }
      refine ⟨(mid, WatchEvent.applied k0) :: t, ?_, ?_⟩
      · rw [ht]
        simp
      · intro x hx
        rcases List.mem_cons.mp hx with hx | hx
        · exact ⟨mid, k0, hx⟩
        · exact hall x hx

theorem sent_mem_delPhase (ks : List PodKey) (q : Queue)
    (x : Nat × WatchEvent) (hx : x ∈ q.sent) : x ∈ (delPhase q ks).sent := by
  obtain ⟨t, ht, _⟩ := delPhase_sent_shape ks q
  rw [ht]
  exact List.mem_append_left t hx

theorem sent_mem_appPhase (ks : List PodKey) (q : Queue)
    (x : Nat × WatchEvent) (hx : x ∈ q.sent) : x ∈ (appPhase q ks).sent := by
  obtain ⟨t, ht, _⟩ := appPhase_sent_shape ks q
  rw [ht]
  exact List.mem_append_left t hx

theorem delPhase_sent_mem (ks : List PodKey) (q : Queue) (k : PodKey)
    (mid : Nat) (hk : k ∈ ks) (h : alookup q.handlers k = some mid) :
    (mid, WatchEvent.deleted k) ∈ (delPhase q ks).sent := by
  induction ks generalizing q with
  | nil => cases hk
  | cons k0 rest ih =>
    rw [delPhase_cons]
    by_cases he : k = k0
    · subst he
      apply sent_mem_delPhase
      rw [enqueue_deleted_some q k mid h]
      simp
    · have hk' : k ∈ rest := by
        rcases List.mem_cons.mp hk with hc | hc
        · exact absurd hc he
        · exact hc
      have h' : alookup (q.enqueue (WatchEvent.deleted k0)).handlers k = some mid := by
        rw [enqueue_deleted_lookup, if_neg he]
        exact h
      exact ih (q.enqueue (WatchEvent.deleted k0)) hk' h'

theorem appPhase_lookup_isSome (ks : List PodKey) (q : Queue) (k : PodKey) :
    (alookup (appPhase q ks).handlers k).isSome =
      ((alookup q.handlers k).isSome || decide (k ∈ ks)) := by
  induction ks generalizing q with
  | nil => simp [appPhase]
  | cons k0 rest ih =>
    rw [appPhase_cons, ih, enqueue_applied_lookup_isSome]
    by_cases h1 : k = k0 <;> by_cases h2 : k ∈ rest <;> simp [h1, h2]

theorem appPhase_sent_mem (ks : List PodKey) (q : Queue) (k : PodKey)
    (hk : k ∈ ks) :
    ∃ mid, (mid, WatchEvent.applied k) ∈ (appPhase q ks).sent := by
  induction ks generalizing q with
  | nil => cases hk
  | cons k0 rest ih =>
    rw [appPhase_cons]
    by_cases he : k = k0
    · subst he
      rcases h : alookup q.handlers k with _ | mid
      · refine ⟨q.nextId, ?_⟩
        apply sent_mem_appPhase
        rw [enqueue_applied_none q k h]
        simp
      · refine ⟨mid, ?_⟩
        apply sent_mem_appPhase
        rw [enqueue_applied_some q k mid h]
        simp
    · have hk' : k ∈ rest := by
        rcases List.mem_cons.mp hk with hc | hc
        · exact absurd hc he
        · exact hc
      exact ih (q.enqueue (WatchEvent.applied k0)) hk'

/-! ### Claim theorems -/

/-- C10: for a resource kind no object of which has ever been inserted (the
store holds no inner map for its `GroupVersionKind`), `Store::get` returns
`Ok(None)` — the same result as a plain cache miss — rather than an error
distinguishing an untracked kind from a missing key. -/
theorem get_unknown_kind_none (st : Store) (r : Resource)
    (nspace : Option String) (name : String)
    (h : alookup st.objects r.gvk = none) :
    st.get r nspace name = Except.ok none := by
  unfold Store.get
  rw [h]

/-- Witness for C10 at the empty store. -/
theorem get_unknown_kind_none_witness :
    Store.empty.get ⟨"", "v1", "Pod", 1⟩ (some "default") "web"
      = Except.ok none :=
  get_unknown_kind_none Store.empty ⟨"", "v1", "Pod", 1⟩ (some "default")
    "web" rfl

/-- C2, counterexample to the claim as stated: with a value of a different
runtime type stored under the requested key, `Store::get` returns the
`bail!` error, not `Ok(None)`. -/
theorem get_type_mismatch_not_none :
    (Store.insertAny Store.empty ⟨"", "v1", "Pod"⟩ (some "default") "web"
        ⟨2, 7⟩).get ⟨"", "v1", "Pod", 1⟩ (some "default") "web"
      ≠ Except.ok none := by
  have h1 : (Store.insertAny Store.empty ⟨"", "v1", "Pod"⟩ (some "default")
      "web" ⟨2, 7⟩).get ⟨"", "v1", "Pod", 1⟩ (some "default") "web"
      = Except.error (mismatchMessage ⟨"", "v1", "Pod", 1⟩) := rfl
  intro h
  rw [h1] at h
  exact Except.noConfusion h

/-- C2 as amended: when the stored boxed value's runtime type differs from
the requested resource type, `Store::get` reports the type mismatch as an
error to the caller (it does not return `None`). -/
theorem get_type_mismatch_errors (st : Store) (r : Resource)
    (nspace : Option String) (name : String)
    (inner : List (ObjectKey × AnyBox)) (box : AnyBox)
    (hI : alookup st.objects r.gvk = some inner)
    (hB : alookup inner ⟨nspace, name⟩ = some box)
    (hT : ¬ box.tyId = r.tyId) :
    st.get r nspace name = Except.error (mismatchMessage r) := by
  unfold Store.get
  rw [hI]
  simp only [hB, if_neg hT]

/-- Witness for the amended C2 on a one-element store. -/
theorem get_type_mismatch_errors_witness :
    (Store.insertAny Store.empty ⟨"", "v1", "Pod"⟩ (some "default") "web"
        ⟨2, 7⟩).get ⟨"", "v1", "Pod", 1⟩ (some "default") "web"
      = Except.error (mismatchMessage ⟨"", "v1", "Pod", 1⟩) :=
  get_type_mismatch_errors _ ⟨"", "v1", "Pod", 1⟩ (some "default") "web"
    [(⟨some "default", "web"⟩, ⟨2, 7⟩)] ⟨2, 7⟩ rfl rfl (by decide)

/-- C8, counterexample to the claim as stated: two `get`s after a single
`insert` observe the written value twice, and `[1, 1]` is not a subsequence
of the write sequence `[1]`. -/
theorem repeated_get_not_sublist :
    ¬ List.Sublist
      (runObs ⟨"", "v1", "Pod", 1⟩ (some "default") "web"
        [StoreOp.ins 1, StoreOp.get, StoreOp.get] Store.empty)
      (writesOf [StoreOp.ins 1, StoreOp.get, StoreOp.get]) := by
  intro h
  have hobs : runObs ⟨"", "v1", "Pod", 1⟩ (some "default") "web"
      [StoreOp.ins 1, StoreOp.get, StoreOp.get] Store.empty = [1, 1] := rfl
  have hw : writesOf [StoreOp.ins 1, StoreOp.get, StoreOp.get] = [1] := rfl
  have hlen := h.length_le
  rw [hobs, hw] at hlen
  exact absurd hlen (by decide)

/-- C8 as amended: a `get` right after `insert(v)` returns `Ok(Some v)`;
a second `insert` under the same key overwrites the first; and for any
fixed key whose slot starts empty, the sequence of values observed by
`get`, after collapsing consecutive duplicate reads, is a subsequence of
the sequence of values written by `insert`. -/
theorem store_linearizability_collapsed (r : Resource)
    (nspace : Option String) (name : String) (v1 v2 : Nat) (st : Store)
    (ops : List StoreOp)
    (h : typedLookup st r nspace name = none) :
    (st.insert r nspace name v1).get r nspace name = Except.ok (some v1) ∧
    ((st.insert r nspace name v1).insert r nspace name v2).get r nspace name
      = Except.ok (some v2) ∧
    List.Sublist (collapse (runObs r nspace name ops st)) (writesOf ops) := by
  refine ⟨get_insert st r nspace name v1, get_insert _ r nspace name v2, ?_⟩
  rw [runObs_eq_runOpt, h]
  exact collapse_sublist_none ops

/-- Witness for the amended C8 on a concrete four-operation history. -/
theorem store_linearizability_collapsed_witness :
    (Store.empty.insert ⟨"", "v1", "Pod", 1⟩ (some "default") "web" 5).get
        ⟨"", "v1", "Pod", 1⟩ (some "default") "web" = Except.ok (some 5) ∧
    ((Store.empty.insert ⟨"", "v1", "Pod", 1⟩ (some "default") "web" 5).insert
        ⟨"", "v1", "Pod", 1⟩ (some "default") "web" 6).get
        ⟨"", "v1", "Pod", 1⟩ (some "default") "web" = Except.ok (some 6) ∧
    List.Sublist
      (collapse (runObs ⟨"", "v1", "Pod", 1⟩ (some "default") "web"
        [StoreOp.ins 5, StoreOp.get, StoreOp.get, StoreOp.ins 6, StoreOp.get]
        Store.empty))
      (writesOf
        [StoreOp.ins 5, StoreOp.get, StoreOp.get, StoreOp.ins 6, StoreOp.get]) :=
  store_linearizability_collapsed ⟨"", "v1", "Pod", 1⟩ (some "default") "web"
    5 6 Store.empty
    [StoreOp.ins 5, StoreOp.get, StoreOp.get, StoreOp.ins 6, StoreOp.get] rfl

/-- C3: on every terminating path of a pod's state-machine task — normal
completion, completion with error (followed by the `Failed` status patch),
or the deletion sentinel winning the race — `start_task` performs the pod
state's `async_drop` exactly once. -/
theorem async_drop_exactly_once (o : SelectOutcome) :
    List.countP (fun a => isAsyncDrop a) (start_task o) = 1 := by
  cases o with
  | completed r => cases r <;> rfl
  | deletedFirst r => cases r <;> rfl

/-- C1, counterexample to the claim as stated: starting from a fresh pod
state, the third consecutive visit to the `Error` state still waits and
transitions back to `Registered`; it does not transition to
`CrashLoopBackoff`. -/
theorem three_errors_go_to_registered :
    (errorRepeat ⟨0⟩ 2).2 = ErrorTransition.waitThenRegistered ∧
    ¬ (errorRepeat ⟨0⟩ 2).2 = ErrorTransition.toCrashLoopBackoff := by
  exact ⟨rfl, by decide⟩

/-- C1 as amended: the `Error` state transitions to `CrashLoopBackoff` on
the fourth consecutive error (when the incremented counter exceeds 3),
resetting the error counter; with fewer consecutive errors it waits and
transitions back to `Registered`; its status reports phase `Pending` with
the error message as reason; and `CrashLoopBackoff` reports `Pending` with
reason "CrashLoopBackoff" and, after its backoff wait, transitions back to
`Registered`. -/
theorem crash_loop_after_four_errors :
    (errorRepeat ⟨0⟩ 0).2 = ErrorTransition.waitThenRegistered ∧
    (errorRepeat ⟨0⟩ 1).2 = ErrorTransition.waitThenRegistered ∧
    (errorRepeat ⟨0⟩ 2).2 = ErrorTransition.waitThenRegistered ∧
    (errorRepeat ⟨0⟩ 3).2 = ErrorTransition.toCrashLoopBackoff ∧
    (errorRepeat ⟨0⟩ 3).1.errors = 0 ∧
    (∀ s : WasiPodState,
      (errorNext s).2 =
        if 3 ≤ s.errors then ErrorTransition.toCrashLoopBackoff
        else ErrorTransition.waitThenRegistered) ∧
    (∀ s : WasiPodState,
      (errorNext s).1.errors = if 3 ≤ s.errors then 0 else s.errors + 1) ∧
    (∀ message : String, errorStatus message = (Phase.pending, message)) ∧
    crashLoopBackoffStatus = (Phase.pending, "CrashLoopBackoff") ∧
    crashLoopBackoffNext = BackoffStep.waitThenRegistered := by
  refine ⟨rfl, rfl, rfl, rfl, rfl, ?_, ?_, fun _ => rfl, rfl, rfl⟩
  · intro s
    by_cases h : 3 ≤ s.errors <;> simp [errorNext, Nat.lt_succ_iff, h]
  · intro s
    by_cases h : 3 ≤ s.errors <;> simp [errorNext, Nat.lt_succ_iff, h]

/-- C9: for every outcome of the wasmtime task, the status sequence on a
container's channel starts at `Waiting`, is monotone in the lifecycle order
`Waiting` then `Running` then `Terminated` (so it never regresses to
`Waiting` after `Running`), and reports nothing further once `Terminated`
has been reported (only the last status is `Terminated`). -/
theorem container_status_monotone (o : WasmtimeOutcome) :
    ((runtimeStatuses o).head?.map isWaitingStatus) = some true ∧
    List.Pairwise (fun a b => statusRank a ≤ statusRank b)
      (runtimeStatuses o) ∧
    (runtimeStatuses o).dropLast.all (fun x => ! isTerminatedStatus x)
      = true ∧
    ((runtimeStatuses o).getLast?.map isTerminatedStatus) = some true := by
  cases o <;> refine ⟨rfl, ?_, rfl, rfl⟩ <;> decide

theorem resync_eq (q : Queue) (pods : List PodKey) :
    q.resync pods =
      appPhase
        (delPhase q
          ((q.handlers.map Prod.fst).filter (fun k => decide (¬ k ∈ pods))))
        pods :=
  rfl

/-- C4: `enqueue(Applied(pod))` spawns a new state-machine task only when
no mailbox exists for the pod's key — with an existing mailbox nothing is
spawned, the handler map is untouched and the event is forwarded to the
existing mailbox; with no mailbox, the mailbox creation and the task spawn
happen together in the same step, and the event is forwarded to the new
mailbox. -/
theorem applied_spawns_iff_no_mailbox (q : Queue) (k : PodKey) :
    (∀ mid, alookup q.handlers k = some mid →
      (q.enqueue (WatchEvent.applied k)).spawned = q.spawned ∧
      (q.enqueue (WatchEvent.applied k)).handlers = q.handlers ∧
      (q.enqueue (WatchEvent.applied k)).sent =
        q.sent ++ [(mid, WatchEvent.applied k)]) ∧
    (alookup q.handlers k = none →
      (q.enqueue (WatchEvent.applied k)).spawned =
        q.spawned ++ [(q.nextId, k)] ∧
      alookup (q.enqueue (WatchEvent.applied k)).handlers k = some q.nextId ∧
      (q.enqueue (WatchEvent.applied k)).sent =
        q.sent ++ [(q.nextId, WatchEvent.applied k)]) := by
  constructor
  · intro mid h
    rw [enqueue_applied_some q k mid h]
    exact ⟨rfl, rfl, rfl⟩
  · intro h
    rw [enqueue_applied_none q k h]
    exact ⟨rfl, alookup_aupsert_self _ _ _, rfl⟩

/-- Witness for C4: a first `Applied` on the empty queue spawns a task; a
second `Applied` for the same key spawns nothing. -/
theorem applied_spawns_iff_no_mailbox_witness :
    (Queue.empty.enqueue (WatchEvent.applied ⟨"default", "web"⟩)).spawned =
      Queue.empty.spawned ++ [(0, (⟨"default", "web"⟩ : PodKey))] ∧
    ((Queue.empty.enqueue (WatchEvent.applied ⟨"default", "web"⟩)).enqueue
        (WatchEvent.applied ⟨"default", "web"⟩)).spawned =
      (Queue.empty.enqueue (WatchEvent.applied ⟨"default", "web"⟩)).spawned :=
  ⟨((applied_spawns_iff_no_mailbox Queue.empty ⟨"default", "web"⟩).2 rfl).1,
    ((applied_spawns_iff_no_mailbox
        (Queue.empty.enqueue (WatchEvent.applied ⟨"default", "web"⟩))
        ⟨"default", "web"⟩).1 0 rfl).1⟩

/-- C7: `enqueue(Deleted(pod))` with an existing mailbox removes the
mailbox from the map (so no later event can be forwarded to it) and
forwards the final `Deleted` event into it, spawning nothing; with no
mailbox for the key the event is silently dropped — the queue is returned
unchanged and, in the source, `Ok(())`. -/
theorem deleted_removes_or_drops (q : Queue) (k : PodKey) :
    (∀ mid, alookup q.handlers k = some mid →
      alookup (q.enqueue (WatchEvent.deleted k)).handlers k = none ∧
      (q.enqueue (WatchEvent.deleted k)).sent =
        q.sent ++ [(mid, WatchEvent.deleted k)] ∧
      (q.enqueue (WatchEvent.deleted k)).spawned = q.spawned) ∧
    (alookup q.handlers k = none → q.enqueue (WatchEvent.deleted k) = q) := by
  constructor
  · intro mid h
    rw [enqueue_deleted_some q k mid h]
    exact ⟨alookup_aremove_self _ _, rfl, rfl⟩
  · exact enqueue_deleted_none q k

/-- Witness for C7: deleting a pod with a mailbox removes it; deleting a
never-seen pod leaves the empty queue unchanged. -/
theorem deleted_removes_or_drops_witness :
    alookup ((Queue.empty.enqueue
        (WatchEvent.applied ⟨"default", "web"⟩)).enqueue
        (WatchEvent.deleted ⟨"default", "web"⟩)).handlers
      ⟨"default", "web"⟩ = none ∧
    Queue.empty.enqueue (WatchEvent.deleted ⟨"default", "web"⟩) =
      Queue.empty :=
  ⟨((deleted_removes_or_drops
        (Queue.empty.enqueue (WatchEvent.applied ⟨"default", "web"⟩))
        ⟨"default", "web"⟩).1 0 rfl).1,
    (deleted_removes_or_drops Queue.empty ⟨"default", "web"⟩).2 rfl⟩

/-- C5: after `resync([p1..pn])`, mailboxes exist for exactly the keys of
the listed pods; every prior mailbox whose key is not in the list was sent
a `Deleted` event and removed; every listed pod was enqueued as `Applied`;
and the forwarded events consist of the old ones followed by the `Deleted`
batch followed by the `Applied` batch. -/
theorem resync_completeness (q : Queue) (pods : List PodKey) :
    (∀ k, (alookup (q.resync pods).handlers k).isSome = true ↔ k ∈ pods) ∧
    (∀ k mid, alookup q.handlers k = some mid → ¬ k ∈ pods →
      (mid, WatchEvent.deleted k) ∈ (q.resync pods).sent ∧
      alookup (q.resync pods).handlers k = none) ∧
    (∀ k, k ∈ pods →
      ∃ mid, (mid, WatchEvent.applied k) ∈ (q.resync pods).sent) ∧
    (∃ d a, (q.resync pods).sent = q.sent ++ d ++ a ∧
      (∀ x ∈ d, ∃ mid k, x = (mid, WatchEvent.deleted k)) ∧
      (∀ x ∈ a, ∃ mid k, x = (mid, WatchEvent.applied k))) := by
  have hstale : ∀ k, alookup q.handlers k ≠ none → ¬ k ∈ pods →
      k ∈ (q.handlers.map Prod.fst).filter (fun k => decide (¬ k ∈ pods)) := by
    intro k hsome hnp
    rw [List.mem_filter]
    refine ⟨?_, by simpa using hnp⟩
    rw [← alookup_isSome_mem]
    cases ho : alookup q.handlers k with
    | none => exact absurd ho hsome
    | some _ => rfl
  refine ⟨?_, ?_, ?_, ?_⟩
  · intro k
    rw [resync_eq, appPhase_lookup_isSome, delPhase_lookup]
    constructor
    · intro h
      by_cases hp : k ∈ pods
      · exact hp
      · exfalso
        have hk : k ∈ (q.handlers.map Prod.fst).filter
            (fun k => decide (¬ k ∈ pods)) := by
          apply hstale k ?_ hp
          intro hnone
          rw [if_neg ?_, hnone] at h
          · simp [hp] at h
          · intro hmem
            rw [List.mem_filter] at hmem
            rw [← alookup_isSome_mem, hnone] at hmem
            simp at hmem
        rw [if_pos hk] at h
        simp [hp] at h
    · intro hp
      simp [hp]
  · intro k mid h hnp
    have hk := hstale k (by rw [h]; intro hc; exact Option.noConfusion hc) hnp
    constructor
    · rw [resync_eq]
      apply sent_mem_appPhase
      exact delPhase_sent_mem _ q k mid hk h
    · rw [resync_eq]
      have hS := appPhase_lookup_isSome pods
        (delPhase q
          ((q.handlers.map Prod.fst).filter (fun k => decide (¬ k ∈ pods)))) k
      rw [delPhase_lookup, if_pos hk] at hS
      simp only [Option.isSome_none, Bool.false_or] at hS
      cases ho : alookup (appPhase
          (delPhase q
            ((q.handlers.map Prod.fst).filter (fun k => decide (¬ k ∈ pods))))
          pods).handlers k with
      | none => rfl
      | some m =>
        rw [ho] at hS
        simp [hnp] at hS
  · intro k hk
    rw [resync_eq]
    exact appPhase_sent_mem pods _ k hk
  · obtain ⟨d, hd, hdall⟩ := delPhase_sent_shape
      ((q.handlers.map Prod.fst).filter (fun k => decide (¬ k ∈ pods))) q
    obtain ⟨a, ha, haall⟩ := appPhase_sent_shape pods
      (delPhase q
        ((q.handlers.map Prod.fst).filter (fun k => decide (¬ k ∈ pods))))
    refine ⟨d, a, ?_, hdall, haall⟩
    rw [resync_eq, ha, hd, List.append_assoc]

/-- Witness for C5 on a queue with one mailbox resynced against a
different single pod: the old mailbox receives `Deleted`, the new key gets
a mailbox. -/
theorem resync_completeness_witness :
    (alookup ((Queue.empty.enqueue
        (WatchEvent.applied ⟨"default", "old"⟩)).resync
        [⟨"default", "new"⟩]).handlers ⟨"default", "new"⟩).isSome = true ∧
    (0, WatchEvent.deleted ⟨"default", "old"⟩) ∈
      ((Queue.empty.enqueue
        (WatchEvent.applied ⟨"default", "old"⟩)).resync
        [⟨"default", "new"⟩]).sent :=
  ⟨((resync_completeness
        (Queue.empty.enqueue (WatchEvent.applied ⟨"default", "old"⟩))
        [⟨"default", "new"⟩]).1 ⟨"default", "new"⟩).mpr (by simp),
    ((resync_completeness
        (Queue.empty.enqueue (WatchEvent.applied ⟨"default", "old"⟩))
        [⟨"default", "new"⟩]).2.1 ⟨"default", "old"⟩ 0 rfl (by decide)).1⟩

/-- C6: on the watch channel behind `Manifest`, if the writer sends `v1`
then `v2` with no reader poll between the two sends, any reader that has
not polled since before the sends observes `v2` on its next poll; no poll
of the resulting channel can observe `v1`; and `latest` returns a clone of
the most recently sent value without suspending. -/
theorem manifest_coalescing {T : Type} (c : WatchChannel T)
    (r : WatchReader) (v1 v2 : T) (hne : ¬ v1 = v2)
    (hseen : r.seen ≤ c.version) :
    (wpoll (wsend (wsend c v1) v2) r).1 = some v2 ∧
    (∀ r' : WatchReader, ¬ (wpoll (wsend (wsend c v1) v2) r').1 = some v1) ∧
    latest (wsend (wsend c v1) v2) = v2 := by
  refine ⟨?_, ?_, rfl⟩
  · unfold wpoll wsend
    rw [if_pos (by simp only []; omega)]
  · intro r'
    unfold wpoll wsend
    by_cases h : r'.seen < c.version + 1 + 1
    · rw [if_pos (by simpa using h)]
      intro hc
      simp only [Option.some.injEq] at hc
      exact hne hc.symm
    · rw [if_neg (by simpa using h)]
      intro hc
      exact Option.noConfusion hc

/-- Witness for C6 on a natural-number channel. -/
theorem manifest_coalescing_witness :
    (wpoll (wsend (wsend (⟨0, 0⟩ : WatchChannel Nat) 1) 2) ⟨0⟩).1
      = some 2 :=
  (manifest_coalescing ⟨0, 0⟩ ⟨0⟩ 1 2 (by decide) (by decide)).1

end Krustlet
